import Mathlib

/-!
Shallow embedding of the risk-aware routing core of `Backend/Go/main.go`
(package `main` of the PICT repository).

Modelling conventions:
* Go `float64` values are modelled as exact rationals (`ℚ`).  All the
  arithmetic the verified claims depend on (the weight formula, cost
  accumulation, comparisons) is carried out exactly.
* Go maps (`map[Point]map[Point]Edge`, `map[Point]float64`, `sync.Map`)
  are modelled as association lists with overwrite-on-insert; new keys are
  appended, so iteration order is insertion order.  Go's map iteration
  order is unspecified, and the spec declares all order-dependent
  behaviour (priority ties, nearest-point ties) implementation-defined,
  so a fixed order is a legitimate refinement.
* `math.Sqrt` is irrational-valued, so the nearest-point scan — which
  only compares square roots — is modelled on squared distances (square
  root is strictly monotone on nonnegative reals, so the argmin is
  unchanged), and the A* heuristic is left as a function parameter
  `hfun : Point → Point → ℚ`; every theorem below holds for an arbitrary
  heuristic, in particular for (any rational rounding of) the source's
  Euclidean one.
* The unbounded `for` loops of `FindRoute` and `reconstructPath` are
  modelled with explicit fuel; a `none` result means the fuel ran out
  (the model makes no statement about that run), `some r` means the Go
  loop terminates with result `r`.
-/

namespace PICT

/-- `Point` from the source: an (x, y) pair of `float64` coordinates,
used both as a coordinate and as a graph-node identifier with exact
equality. -/
structure Point where
  x : ℚ
  y : ℚ
deriving DecidableEq

/-- `Bounds` from the source: an axis-aligned bounding box. -/
structure Bounds where
  minX : ℚ
  minY : ℚ
  maxX : ℚ
  maxY : ℚ

/-- The `chicagoBounds` package-level constant. -/
def chicagoBounds : Bounds :=
  { minX := -8794011/100000
  , minY := 4164454/100000
  , maxX := -8752414/100000
  , maxY := 4202304/100000 }

/-- `isInBounds` from the source. -/
def isInBounds (p : Point) (b : Bounds) : Bool :=
  p.x ≥ b.minX && p.x ≤ b.maxX && p.y ≥ b.minY && p.y ≤ b.maxY

/-- `Edge` from the source.  (`End` is a Lean keyword, hence `end_`.) -/
structure Edge where
  start : Point
  end_ : Point
  distance : ℚ
  riskScore : ℚ
deriving DecidableEq

/-- Association-list lookup, modelling Go map indexing `m[k]` (comma-ok
form: `none` when the key is absent). -/
def lookupA {α β : Type} [DecidableEq α] (l : List (α × β)) (k : α) :
    Option β :=
  match l with
  | [] => none
  | (k', v) :: rest => if k' = k then some v else lookupA rest k

/-- Association-list update, modelling Go map assignment `m[k] = v`:
overwrite in place if the key exists, otherwise append. -/
def upsertA {α β : Type} [DecidableEq α] (l : List (α × β)) (k : α) (v : β) :
    List (α × β) :=
  match l with
  | [] => [(k, v)]
  | (k', v') :: rest =>
      if k' = k then (k, v) :: rest else (k', v') :: upsertA rest k v

/-- `Graph` from the source: `Edges map[Point]map[Point]Edge` plus the
running maximum edge distance `maxDist`.  (The mutex is a concurrency
artefact with no sequential semantics and is not modelled.) -/
structure Graph where
  edges : List (Point × List (Point × Edge))
  maxDist : ℚ
deriving DecidableEq

/-- `NewGraph` from the source: empty adjacency, `maxDist` is the
`float64` zero value. -/
def NewGraph : Graph := { edges := [], maxDist := 0 }

/-- `Graph.AddEdge` from the source: store the edge under
`Edges[start][end]`, store the reversed edge under `Edges[end][start]`,
then raise `maxDist` if this distance exceeds it. -/
def Graph.AddEdge (g : Graph) (start end_ : Point) (distance riskScore : ℚ) :
    Graph :=
  let adjS := (lookupA g.edges start).getD []
  let adjS := upsertA adjS end_
    { start := start, end_ := end_, distance := distance, riskScore := riskScore }
  let es := upsertA g.edges start adjS
  let adjE := (lookupA es end_).getD []
  let adjE := upsertA adjE start
    { start := end_, end_ := start, distance := distance, riskScore := riskScore }
  let es := upsertA es end_ adjE
  { edges := es
  , maxDist := if distance > g.maxDist then distance else g.maxDist }

/-- Reading `g.Edges[u][v]` in comma-ok form. -/
def Graph.findEdge (g : Graph) (u v : Point) : Option Edge :=
  lookupA ((lookupA g.edges u).getD []) v

/-- Reading the adjacency map `g.Edges[p]` (a missing key gives the empty
map, as `range` over a `nil` Go map yields no iterations). -/
def Graph.neighbors (g : Graph) (p : Point) : List (Point × Edge) :=
  (lookupA g.edges p).getD []

/-- Squared Euclidean distance.  The source compares
`math.Sqrt(dx² + dy²)` values; square root is strictly monotone on
nonnegative reals, so minimising the squared distance selects the same
node. -/
def sqDist (a b : Point) : ℚ :=
  (a.x - b.x) ^ 2 + (a.y - b.y) ^ 2

/-- `findNearestPoint` from the source: scan every node key of
`g.Edges`, keeping the strictly closest; `minDist` starts at
`math.MaxFloat64` (an upper bound no realistic distance reaches),
modelled as "no candidate yet".  An empty graph returns the zero
`Point`, as in Go. -/
def Graph.findNearestPoint (g : Graph) (p : Point) : Point :=
  ((g.edges.foldl
      (fun (acc : Option (ℚ × Point)) kv =>
        let d := sqDist kv.1 p
        match acc with
        | none => some (d, kv.1)
        | some (m, n) => if d < m then some (d, kv.1) else some (m, n))
      none).map Prod.snd).getD { x := 0, y := 0 }

/-- `validatePoints` from the source (the error values of the two
`fmt.Errorf` calls). -/
def validatePoints (start end_ : Point) : Option String :=
  if !isInBounds start chicagoBounds then some "start point outside bounds"
  else if !isInBounds end_ chicagoBounds then some "end point outside bounds"
  else none

/-- The body of `calculateEdgeWeight`'s cache-miss branch:
`normDistance := edge.Distance / r.G.maxDist` followed by
`((1 - alpha) * normDistance + alpha * edge.RiskScore) * r.G.maxDist`.
In ℚ a zero divisor yields the junk value 0 rather than float64's
Inf/NaN; see `calculateEdgeWeightDivGuard` for the honest treatment of
that case. -/
def edgeWeightFormula (g : Graph) (edge : Edge) (alpha : ℚ) : ℚ :=
  let normDistance := edge.distance / g.maxDist
  ((1 - alpha) * normDistance + alpha * edge.riskScore) * g.maxDist

/-- The alpha component of the cache key: `fmt.Sprintf("%f", alpha)`
renders exactly six decimal digits, i.e. it determines and is determined
by the integer of that rendering.  Go's `strconv` rounds the exact
binary value to nearest with a six-decimal tie going to the even last
digit — ties do occur, e.g. `alpha = 1/128 = 0.0078125` is exactly
representable and renders as `"0.007812"` — so the scaled value is
rounded here with the same ties-to-even rule. -/
def fmt6 (alpha : ℚ) : ℤ :=
  let scaled := alpha * 1000000
  let fl := ⌊scaled⌋
  let frac := scaled - fl
  if frac < 1/2 then fl
  else if 1/2 < frac then fl + 1
  else if fl % 2 = 0 then fl else fl + 1

/-- The cache key `fmt.Sprintf("%v-%v-%f", edge.Start, edge.End, alpha)`.
`%v` on a float64 prints a shortest uniquely-roundtripping decimal, so
distinct points render distinctly and the string key is equivalent to
this record. -/
structure CacheKey where
  keyStart : Point
  keyEnd : Point
  alpha6 : ℤ
deriving DecidableEq

/-- The `weightCache` (`sync.Map`), modelled as explicit state. -/
abbrev Cache := List (CacheKey × ℚ)

/-- Builds the cache key of `calculateEdgeWeight`. -/
def cacheKey (edge : Edge) (alpha : ℚ) : CacheKey :=
  { keyStart := edge.start, keyEnd := edge.end_, alpha6 := fmt6 alpha }

/-- `calculateEdgeWeight` from the source: look the key up in the weight
cache; on a hit return the cached value, on a miss compute the formula,
store it, and return it.  The mutated `sync.Map` is threaded as explicit
state. -/
def calculateEdgeWeight (g : Graph) (c : Cache) (edge : Edge) (alpha : ℚ) :
    ℚ × Cache :=
  match lookupA c (cacheKey edge alpha) with
  | some w => (w, c)
  | none =>
      let w := edgeWeightFormula g edge alpha
      (w, upsertA c (cacheKey edge alpha) w)

/-- The source computes `normDistance := edge.Distance / r.G.maxDist`
with no guard on the divisor.  On float64, a zero divisor yields ±Inf or
NaN, which ℚ cannot represent; this variant returns `none` exactly when
the source executes that division with divisor zero, and the formula
value otherwise. -/
def calculateEdgeWeightDivGuard (g : Graph) (edge : Edge) (alpha : ℚ) :
    Option ℚ :=
  if g.maxDist = 0 then none else some (edgeWeightFormula g edge alpha)

/-- One segment handed to graph construction (endpoint pair, length,
risk score), the shape `loadRoadNetwork` feeds to `AddEdge`. -/
structure Seg where
  a : Point
  b : Point
  d : ℚ
  r : ℚ

/-- A graph built from `NewGraph` by a sequence of `AddEdge` calls, the
only way the source ever constructs one. -/
def buildGraph (segs : List Seg) : Graph :=
  segs.foldl (fun g s => g.AddEdge s.a s.b s.d s.r) NewGraph

/-- `NewRiskAwareRouter` from the source builds the graph via
`loadRoadNetwork` and returns an error only when the GeoJSON file cannot
be read or parsed; a successfully parsed segment list — including an
empty one, or one whose segments all have zero length — is never
rejected.  With the file I/O abstracted into the already-parsed segment
list, construction always succeeds. -/
def NewRiskAwareRouter (segs : List Seg) : Except String Graph :=
  Except.ok (buildGraph segs)

/-- The walk of `reconstructPath`: follow `cameFrom` links, prepending
each predecessor to the path and accumulating distance and
risk-times-distance; when no predecessor exists, stop and divide risk by
distance (0 when the distance is 0, per the `totalDist > 0` guard).
`container/heap` has been left behind at this point; the walk is a plain
loop, bounded here by fuel. -/
def reconstructPathAux (g : Graph) (cameFrom : List (Point × Point)) :
    ℕ → Point → List Point → ℚ → ℚ → Option (List Point × ℚ × ℚ)
  | 0, _, _, _, _ => none
  | Nat.succ fuel, current, path, totalDist, totalRisk =>
      match lookupA cameFrom current with
      | none =>
          some (path, totalDist, if totalDist > 0 then totalRisk / totalDist else 0)
      | some prev =>
          let edge := (g.findEdge prev current).getD
            { start := { x := 0, y := 0 }, end_ := { x := 0, y := 0 }
            , distance := 0, riskScore := 0 }
          reconstructPathAux g cameFrom fuel prev (prev :: path)
            (totalDist + edge.distance) (totalRisk + edge.riskScore * edge.distance)

/-- `reconstructPath` from the source, starting from `path := [current]`
and zero accumulators.  (A missing `Edges[prev][current]` entry reads
the zero `Edge` value, as in Go.) -/
def reconstructPath (g : Graph) (cameFrom : List (Point × Point)) (fuel : ℕ)
    (current : Point) : Option (List Point × ℚ × ℚ) :=
  reconstructPathAux g cameFrom fuel current [current] 0 0

/-- Insertion into the priority queue keeping priorities nondecreasing,
so the head is a minimal-priority element.  `container/heap` pops some
minimal-priority element with unspecified tie order; a stable sorted
list is one legitimate resolution of that freedom (the spec declares
priority ties implementation-defined). -/
def pqInsert (item : Point × ℚ) : List (Point × ℚ) → List (Point × ℚ)
  | [] => [item]
  | x :: xs => if x.2 ≤ item.2 then x :: pqInsert item xs else item :: x :: xs

/-- The neighbour-expansion loop of `FindRoute`: for each `(nextPoint,
edge)` in the popped node's adjacency, compute the tentative cost
`costSoFar[current] + calculateEdgeWeight(edge, alpha)`; when the
neighbour is unvisited or strictly improved, record the cost, push it
with priority `newCost + h(nextPoint, nearestEnd)`, and set its
predecessor.  Returns the updated cache, frontier, `costSoFar` and
`cameFrom`. -/
def expandNeighbors (g : Graph) (hfun : Point → Point → ℚ) (nearEnd : Point)
    (alpha : ℚ) (current : Point) :
    List (Point × Edge) → Cache → List (Point × ℚ) → List (Point × ℚ) →
    List (Point × Point) →
    Cache × List (Point × ℚ) × List (Point × ℚ) × List (Point × Point)
  | [], c, frontier, costSoFar, cameFrom => (c, frontier, costSoFar, cameFrom)
  | (nextPoint, edge) :: rest, c, frontier, costSoFar, cameFrom =>
      let wc := calculateEdgeWeight g c edge alpha
      let newCost := (lookupA costSoFar current).getD 0 + wc.1
      let improved :=
        match lookupA costSoFar nextPoint with
        | none => true
        | some cost => decide (newCost < cost)
      if improved then
        expandNeighbors g hfun nearEnd alpha current rest wc.2
          (pqInsert (nextPoint, newCost + hfun nextPoint nearEnd) frontier)
          (upsertA costSoFar nextPoint newCost)
          (upsertA cameFrom nextPoint current)
      else
        expandNeighbors g hfun nearEnd alpha current rest wc.2
          frontier costSoFar cameFrom

/-- The main loop of `FindRoute`: while the frontier is nonempty, pop a
minimal-priority node; if it is the resolved end, reconstruct and return
the path, otherwise expand its neighbours.  An empty frontier yields the
`"no path found"` error.  The second component records every node popped
from the queue, and the third is the final weight cache; fuel exhaustion
gives `none`. -/
def findRouteAux (g : Graph) (hfun : Point → Point → ℚ) (nearEnd : Point)
    (alpha : ℚ) :
    ℕ → Cache → List (Point × ℚ) → List (Point × ℚ) → List (Point × Point) →
    List Point →
    Option (Except String (List Point × ℚ × ℚ)) × List Point × Cache
  | 0, c, _, _, _, popped => (none, popped, c)
  | Nat.succ fuel, c, frontier, costSoFar, cameFrom, popped =>
      match frontier with
      | [] => (some (Except.error "no path found"), popped, c)
      | (current, _) :: rest =>
          if current = nearEnd then
            match reconstructPath g cameFrom (Nat.succ fuel) current with
            | none => (none, popped ++ [current], c)
            | some r => (some (Except.ok r), popped ++ [current], c)
          else
            match expandNeighbors g hfun nearEnd alpha current
                (g.neighbors current) c rest costSoFar cameFrom with
            | (c', frontier', costSoFar', cameFrom') =>
                findRouteAux g hfun nearEnd alpha fuel c' frontier' costSoFar'
                  cameFrom' (popped ++ [current])

/-- `FindRoute` from the source: validate both query points against the
Chicago bounds, resolve each to its nearest graph node, seed the
frontier with the resolved start (cost 0) and run the A* loop.  Returns
the loop result (`ok (path, totalDistance, averageRisk)` or an error),
the list of popped nodes, and the final cache. -/
def FindRoute (hfun : Point → Point → ℚ) (fuel : ℕ) (g : Graph) (c : Cache)
    (start end_ : Point) (alpha : ℚ) :
    Option (Except String (List Point × ℚ × ℚ)) × List Point × Cache :=
  match validatePoints start end_ with
  | some msg => (some (Except.error msg), [], c)
  | none =>
      let nearestStart := g.findNearestPoint start
      let nearestEnd := g.findNearestPoint end_
      findRouteAux g hfun nearestEnd alpha fuel c
        [(nearestStart, hfun nearestStart nearestEnd)]
        [(nearestStart, 0)] [] []

/-- `Route` from the source. -/
structure Route where
  path : List Point
  distance : ℚ
  risk : ℚ
  alpha : ℚ
deriving DecidableEq

/-- The loop of `calculateRoutes`: try each alpha in order with
`FindRoute`; on error log and continue (the error is dropped), on
success append a `Route`.  The shared weight cache is threaded through
the calls as in the source. -/
def calculateRoutesAux (hfun : Point → Point → ℚ) (fuel : ℕ) (g : Graph)
    (start end_ : Point) :
    List ℚ → Cache → List Route → Option (List Route × Cache)
  | [], c, routes => some (routes, c)
  | alpha :: rest, c, routes =>
      match FindRoute hfun fuel g c start end_ alpha with
      | (none, _, _) => none
      | (some (Except.error _), _, c') =>
          calculateRoutesAux hfun fuel g start end_ rest c' routes
      | (some (Except.ok r), _, c') =>
          calculateRoutesAux hfun fuel g start end_ rest c'
            (routes ++ [{ path := r.1, distance := r.2.1, risk := r.2.2, alpha := alpha }])

/-- `calculateRoutes` from the source: run the loop over the alphas and
fail with `"no valid routes found"` exactly when the collected list is
empty. -/
def calculateRoutes (hfun : Point → Point → ℚ) (fuel : ℕ) (g : Graph)
    (c : Cache) (start end_ : Point) (alphas : List ℚ) :
    Option (Except String (List Route) × Cache) :=
  (calculateRoutesAux hfun fuel g start end_ alphas c []).map
    (fun rc =>
      (if rc.1 = [] then Except.error "no valid routes found" else Except.ok rc.1,
       rc.2))

/-- Instrumentation for `calculateRoutes`: the per-alpha outcome of each
`FindRoute` call, in input order, with the cache threaded exactly as the
loop threads it.  One entry per alpha — `calculateRoutes` invokes
`FindRoute` once per alpha. -/
def alphaOutcomes (hfun : Point → Point → ℚ) (fuel : ℕ) (g : Graph)
    (start end_ : Point) :
    List ℚ → Cache →
    Option (List (ℚ × Except String (List Point × ℚ × ℚ)) × Cache)
  | [], c => some ([], c)
  | alpha :: rest, c =>
      match FindRoute hfun fuel g c start end_ alpha with
      | (none, _, _) => none
      | (some res, _, c') =>
          (alphaOutcomes hfun fuel g start end_ rest c').map
            (fun oc => ((alpha, res) :: oc.1, oc.2))

/-- Folding a list of `(edge, alpha)` queries through
`calculateEdgeWeight`, i.e. a cache populated by prior calls. -/
def runWeightCalls (g : Graph) : Cache → List (Edge × ℚ) → Cache
  | c, [] => c
  | c, q :: rest => runWeightCalls g (calculateEdgeWeight g c q.1 q.2).2 rest

/-- The success/failure outcome of one `calculateRoutes` iteration: an
`ok` outcome yields the appended `Route`, an error outcome is skipped. -/
def routeOfOutcome (p : ℚ × Except String (List Point × ℚ × ℚ)) :
    Option Route :=
  match p.2 with
  | Except.ok r =>
      some { path := r.1, distance := r.2.1, risk := r.2.2, alpha := p.1 }
  | Except.error _ => none

/-- Symmetry invariant of the spec: every present edge has a reverse
edge with identical distance and risk score. -/
def SymG (g : Graph) : Prop :=
  ∀ u v e, g.findEdge u v = some e →
    ∃ e', g.findEdge v u = some e' ∧
      e'.distance = e.distance ∧ e'.riskScore = e.riskScore

/-- Sample node inside the Chicago bounds. -/
def pA : Point := { x := -877/10, y := 419/10 }

/-- Sample node inside the Chicago bounds. -/
def pB : Point := { x := -876/10, y := 419/10 }

/-- Sample node inside the Chicago bounds. -/
def pC : Point := { x := -877/10, y := 418/10 }

/-- Sample node inside the Chicago bounds. -/
def pD : Point := { x := -876/10, y := 418/10 }

/-- A graph with two connected components, `{pA, pB}` and `{pC, pD}`. -/
def gDisc : Graph :=
  buildGraph [{ a := pA, b := pB, d := 1, r := 1/2 },
              { a := pC, b := pD, d := 1, r := 1/2 }]

/-- The `pA`–`pB` edge of `gDisc` as stored in its adjacency. -/
def eAB : Edge := { start := pA, end_ := pB, distance := 1, riskScore := 1/2 }

/-- The reverse `pB`–`pA` edge of `gDisc`. -/
def eBA : Edge := { start := pB, end_ := pA, distance := 1, riskScore := 1/2 }

/-- A connected sample graph with `maxDist = 2`. -/
def gW : Graph :=
  buildGraph [{ a := pA, b := pB, d := 1, r := 1/4 },
              { a := pA, b := pC, d := 2, r := 1/2 }]

/-- The `pA`–`pB` edge of `gW`. -/
def eW : Edge := { start := pA, end_ := pB, distance := 1, riskScore := 1/4 }

/-- A cache populated by one prior `calculateEdgeWeight` call at
`alpha = 10⁻⁷`. -/
def warmCache : Cache := (calculateEdgeWeight gW [] eW (1/10000000)).2

/-- A graph whose only segment has zero length, so `maxDist = 0` while
an edge between distinct nodes is present. -/
def gZero : Graph := buildGraph [{ a := pA, b := pB, d := 0, r := 1/2 }]

/-- A sample heuristic used to instantiate witnesses (every theorem is
proved for an arbitrary heuristic). -/
def hzero : Point → Point → ℚ := fun _ _ => 0

end PICT

deriving instance DecidableEq for Except

namespace PICT

/-- Equality of per-alpha outcome lists paired with caches is decidable;
stated explicitly because automatic synthesis of the product instance
times out on this compound type. -/
instance : DecidableEq (List (ℚ × Except String (List Point × ℚ × ℚ)) × Cache) :=
  instDecidableEqProd

end PICT



namespace PICT

theorem lookupA_upsertA {α β : Type} [DecidableEq α] (l : List (α × β))
    (k k' : α) (v : β) :
    lookupA (upsertA l k v) k' = if k = k' then some v else lookupA l k' := by
  induction l with
  | nil => by_cases h : k = k' <;> simp [upsertA, lookupA, h]
  | cons hd t ih =>
      obtain ⟨a, b⟩ := hd
      by_cases h1 : a = k
      · subst h1
        by_cases h2 : a = k' <;> simp [upsertA, lookupA, h2]
      · by_cases h2 : a = k'
        · subst h2
          have h3 : ¬k = a := fun h => h1 h.symm
          simp [upsertA, lookupA, h1, h3]
        · simp [upsertA, lookupA, h1, h2, ih]

theorem findEdge_AddEdge (g : Graph) (a b u v : Point) (d r : ℚ) :
    (g.AddEdge a b d r).findEdge u v =
      if u = b ∧ v = a then
        some { start := b, end_ := a, distance := d, riskScore := r }
      else if u = a ∧ v = b then
        some { start := a, end_ := b, distance := d, riskScore := r }
      else g.findEdge u v := by
  by_cases hub : u = b
  · subst hub
    by_cases hva : v = a
    · subst hva
      simp [Graph.AddEdge, Graph.findEdge, lookupA_upsertA]
    · have hav : ¬a = v := fun h => hva h.symm
      by_cases hab : a = u
      · subst hab
        simp [Graph.AddEdge, Graph.findEdge, lookupA_upsertA, hva, hav]
      · have hua : ¬u = a := fun h => hab h.symm
        simp [Graph.AddEdge, Graph.findEdge, lookupA_upsertA, hva, hab, hav, hua]
  · by_cases hua : u = a
    · subst hua
      have hbu : ¬b = u := fun h => hub h.symm
      by_cases hvb : v = b
      · subst hvb
        simp [Graph.AddEdge, Graph.findEdge, lookupA_upsertA, hub, hbu]
      · have hbv : ¬b = v := fun h => hvb h.symm
        simp [Graph.AddEdge, Graph.findEdge, lookupA_upsertA, hub, hbu, hvb, hbv]
    · have hbu : ¬b = u := fun h => hub h.symm
      have hau : ¬a = u := fun h => hua h.symm
      simp [Graph.AddEdge, Graph.findEdge, lookupA_upsertA, hub, hua, hbu, hau]

end PICT

namespace PICT

theorem symG_AddEdge (g : Graph) (a b : Point) (d r : ℚ) (hg : SymG g) :
    SymG (g.AddEdge a b d r) := by
  intro u v e h
  rw [findEdge_AddEdge] at h
  rw [findEdge_AddEdge]
  split_ifs at h with h1 h2
  · obtain ⟨rfl, rfl⟩ := h1
    obtain rfl := Option.some.inj h
    by_cases hvu : v = u
    · subst hvu
      exact ⟨_, if_pos ⟨rfl, rfl⟩, rfl, rfl⟩
    · rw [if_neg (fun hc => hvu hc.1), if_pos ⟨rfl, rfl⟩]
      exact ⟨_, rfl, rfl, rfl⟩
  · obtain ⟨rfl, rfl⟩ := h2
    obtain rfl := Option.some.inj h
    rw [if_pos ⟨rfl, rfl⟩]
    exact ⟨_, rfl, rfl, rfl⟩
  · rw [if_neg (fun hc => h2 ⟨hc.2, hc.1⟩), if_neg (fun hc => h1 ⟨hc.2, hc.1⟩)]
    exact hg u v e h

theorem symG_foldl (l : List Seg) (g : Graph) (hg : SymG g) :
    SymG (l.foldl (fun g s => g.AddEdge s.a s.b s.d s.r) g) := by
  induction l generalizing g with
  | nil => exact hg
  | cons s rest ih => exact ih _ (symG_AddEdge _ _ _ _ _ hg)

theorem symG_NewGraph : SymG NewGraph := by
  intro u v e h
  simp [Graph.findEdge, lookupA, NewGraph] at h

theorem symG_buildGraph (segs : List Seg) : SymG (buildGraph segs) :=
  symG_foldl segs NewGraph symG_NewGraph

theorem maxDist_AddEdge (g : Graph) (a b : Point) (d r : ℚ) :
    (g.AddEdge a b d r).maxDist = if d > g.maxDist then d else g.maxDist := rfl

theorem maxDist_le_AddEdge (g : Graph) (a b : Point) (d r : ℚ) :
    g.maxDist ≤ (g.AddEdge a b d r).maxDist := by
  rw [maxDist_AddEdge]
  split_ifs with hd
  · exact le_of_lt hd
  · exact le_refl _

theorem maxDist_le_foldl (l : List Seg) (g : Graph) :
    g.maxDist ≤ (l.foldl (fun g s => g.AddEdge s.a s.b s.d s.r) g).maxDist := by
  induction l generalizing g with
  | nil => exact le_refl _
  | cons s rest ih => exact (maxDist_le_AddEdge g s.a s.b s.d s.r).trans (ih _)

theorem edgeBound_AddEdge (g : Graph) (a b : Point) (d r : ℚ)
    (hg : ∀ u v e, g.findEdge u v = some e → e.distance ≤ g.maxDist) :
    ∀ u v e, (g.AddEdge a b d r).findEdge u v = some e →
      e.distance ≤ (g.AddEdge a b d r).maxDist := by
  intro u v e h
  rw [findEdge_AddEdge] at h
  rw [maxDist_AddEdge]
  split_ifs at h with h1 h2 <;> split_ifs with hd
  · obtain rfl := Option.some.inj h
    exact le_refl _
  · obtain rfl := Option.some.inj h
    exact le_of_not_lt hd
  · obtain rfl := Option.some.inj h
    exact le_refl _
  · obtain rfl := Option.some.inj h
    exact le_of_not_lt hd
  · exact (hg u v e h).trans (le_of_lt hd)
  · exact hg u v e h

theorem edgeBound_foldl (l : List Seg) (g : Graph)
    (hg : ∀ u v e, g.findEdge u v = some e → e.distance ≤ g.maxDist) :
    ∀ u v e,
      (l.foldl (fun g s => g.AddEdge s.a s.b s.d s.r) g).findEdge u v = some e →
      e.distance ≤ (l.foldl (fun g s => g.AddEdge s.a s.b s.d s.r) g).maxDist := by
  induction l generalizing g with
  | nil => exact hg
  | cons s rest ih => exact ih _ (edgeBound_AddEdge _ _ _ _ _ hg)

/-- C5: for every segment inserted via `AddEdge(a, b, d, r)`, afterwards
the adjacency of `a` contains an edge to `b` with distance `d` and risk
score `r`, and the adjacency of `b` contains an edge to `a` with the
same distance and risk score; and after any sequence of `AddEdge` calls,
every present edge has a reverse edge with identical distance and risk
score. -/
theorem addEdge_symmetry_claim :
    (∀ (g : Graph) (a b : Point) (d r : ℚ),
      (g.AddEdge a b d r).findEdge a b =
        some { start := a, end_ := b, distance := d, riskScore := r } ∧
      (g.AddEdge a b d r).findEdge b a =
        some { start := b, end_ := a, distance := d, riskScore := r }) ∧
    (∀ (segs : List Seg) (u v : Point) (e : Edge),
      (buildGraph segs).findEdge u v = some e →
      ∃ e', (buildGraph segs).findEdge v u = some e' ∧
        e'.distance = e.distance ∧ e'.riskScore = e.riskScore) := by
  constructor
  · intro g a b d r
    constructor
    · rw [findEdge_AddEdge]
      by_cases hab : a = b
      · subst hab
        rw [if_pos ⟨rfl, rfl⟩]
      · rw [if_neg (fun hc => hab hc.1), if_pos ⟨rfl, rfl⟩]
    · rw [findEdge_AddEdge, if_pos ⟨rfl, rfl⟩]
  · exact fun segs u v e h => symG_buildGraph segs u v e h

unseal Rat.mul Rat.inv Rat.add Rat.sub in
/-- Witness for C5 at a concrete insertion. -/
theorem addEdge_symmetry_claim_witness :
    ∃ e', (buildGraph [{ a := pA, b := pB, d := 1, r := 1/2 }]).findEdge pB pA =
        some e' ∧ e'.distance = eAB.distance ∧ e'.riskScore = eAB.riskScore :=
  addEdge_symmetry_claim.2 [{ a := pA, b := pB, d := 1, r := 1/2 }] pA pB eAB
    (by decide)

/-- C6: `maxDist` never decreases across any sequence of `AddEdge`
calls, and after every `AddEdge` call it is at least the distance of
every edge currently present in the graph. -/
theorem maxDist_monotone_claim :
    (∀ (g : Graph) (a b : Point) (d r : ℚ),
      g.maxDist ≤ (g.AddEdge a b d r).maxDist) ∧
    (∀ (l : List Seg) (g : Graph),
      g.maxDist ≤ (l.foldl (fun g s => g.AddEdge s.a s.b s.d s.r) g).maxDist) ∧
    (∀ (segs : List Seg) (u v : Point) (e : Edge),
      (buildGraph segs).findEdge u v = some e →
      e.distance ≤ (buildGraph segs).maxDist) := by
  refine ⟨maxDist_le_AddEdge, maxDist_le_foldl, ?_⟩
  intro segs
  exact edgeBound_foldl segs NewGraph (fun u v e h => by
    simp [Graph.findEdge, lookupA, NewGraph] at h)

unseal Rat.mul Rat.inv Rat.add Rat.sub in
/-- Witness for C6 at a concrete graph. -/
theorem maxDist_monotone_claim_witness :
    eAB.distance ≤ (buildGraph [{ a := pA, b := pB, d := 1, r := 1/2 }]).maxDist :=
  maxDist_monotone_claim.2.2 [{ a := pA, b := pB, d := 1, r := 1/2 }] pA pB eAB
    (by decide)

end PICT

namespace PICT

/-- C1: for every edge with distance `d` and risk score `r` and every
alpha, the weight function (here: any call that does not hit a stale
cache entry, in particular every cold-cache call) returns exactly
`((1 - alpha) * (d / maxDist) + alpha * r) * maxDist`. -/
theorem calculateEdgeWeight_formula_claim (g : Graph) (c : Cache)
    (edge : Edge) (alpha : ℚ)
    (h : lookupA c (cacheKey edge alpha) = none) :
    (calculateEdgeWeight g c edge alpha).1 =
      ((1 - alpha) * (edge.distance / g.maxDist) + alpha * edge.riskScore) *
        g.maxDist := by
  simp [calculateEdgeWeight, h, edgeWeightFormula]

/-- Witness for C1 on a cold cache. -/
theorem calculateEdgeWeight_formula_claim_witness :
    lookupA ([] : Cache) (cacheKey eW (1/4)) = none ∧
    (calculateEdgeWeight gW [] eW (1/4)).1 =
      ((1 - 1/4) * (eW.distance / gW.maxDist) + (1/4) * eW.riskScore) *
        gW.maxDist :=
  ⟨rfl, calculateEdgeWeight_formula_claim gW [] eW (1/4) rfl⟩

/-- C7: with `maxDist > 0`, the weight at alpha 0 is exactly the edge
distance, the weight at alpha 1 is exactly `riskScore * maxDist`, and
for alpha in [0,1] the weight is the convex combination
`(1 - alpha) * distance + alpha * (riskScore * maxDist)`, hence lies
between the two extremes. -/
theorem weight_convexity_claim (g : Graph) (edge : Edge) (alpha : ℚ)
    (hM : 0 < g.maxDist) (h0 : 0 ≤ alpha) (h1 : alpha ≤ 1) :
    edgeWeightFormula g edge 0 = edge.distance ∧
    edgeWeightFormula g edge 1 = edge.riskScore * g.maxDist ∧
    edgeWeightFormula g edge alpha =
      (1 - alpha) * edge.distance + alpha * (edge.riskScore * g.maxDist) ∧
    min edge.distance (edge.riskScore * g.maxDist) ≤
      edgeWeightFormula g edge alpha ∧
    edgeWeightFormula g edge alpha ≤
      max edge.distance (edge.riskScore * g.maxDist) := by
  have hne : g.maxDist ≠ 0 := ne_of_gt hM
  have hw : ∀ a : ℚ, edgeWeightFormula g edge a =
      (1 - a) * edge.distance + a * (edge.riskScore * g.maxDist) := by
    intro a
    unfold edgeWeightFormula
    field_simp
    ring
  refine ⟨by rw [hw]; ring, by rw [hw]; ring, hw alpha, ?_, ?_⟩
  · rcases le_total edge.distance (edge.riskScore * g.maxDist) with hle | hle
    · rw [min_eq_left hle, hw]
      nlinarith
    · rw [min_eq_right hle, hw]
      nlinarith
  · rcases le_total edge.distance (edge.riskScore * g.maxDist) with hle | hle
    · rw [max_eq_right hle, hw]
      nlinarith
    · rw [max_eq_left hle, hw]
      nlinarith

unseal Rat.mul Rat.inv Rat.add Rat.sub in
/-- Witness for C7 at a concrete edge and alpha. -/
theorem weight_convexity_claim_witness :
    min eW.distance (eW.riskScore * gW.maxDist) ≤
      edgeWeightFormula gW eW (1/4) :=
  (weight_convexity_claim gW eW (1/4) (by decide) (by decide) (by decide)).2.2.2.1

unseal Rat.mul Rat.inv Rat.add Rat.sub in
/-- C8 (refuting the guard): a single zero-length segment between
distinct nodes passes construction (`NewRiskAwareRouter` never rejects a
degenerate parsed network), leaves `maxDist = 0` with an edge present,
and the weight computation then executes its division with a zero
divisor — the case the spec requires to be guarded. -/
theorem divByZero_unguarded_claim :
    NewRiskAwareRouter [{ a := pA, b := pB, d := 0, r := 1/2 }] =
      Except.ok gZero ∧
    gZero.maxDist = 0 ∧
    gZero.findEdge pA pB =
      some { start := pA, end_ := pB, distance := 0, riskScore := 1/2 } ∧
    calculateEdgeWeightDivGuard gZero
      { start := pA, end_ := pB, distance := 0, riskScore := 1/2 } (1/4) =
      none :=
  ⟨rfl, by decide, by decide, by decide⟩

unseal Rat.mul Rat.inv Rat.add Rat.sub in
/-- C10: the cache key renders alpha to six decimal places, so for any
two alphas with the same rendering (here 10⁻⁷ and 2·10⁻⁷), the second
call returns the weight computed (or cached) for the first; at a
concrete edge the returned value differs from the formula value for the
second alpha. -/
theorem cacheKey_collision_claim :
    (∀ (g : Graph) (c : Cache) (edge : Edge),
      (calculateEdgeWeight g
          (calculateEdgeWeight g c edge (1/10000000)).2 edge (1/5000000)).1 =
        (calculateEdgeWeight g c edge (1/10000000)).1) ∧
    (calculateEdgeWeight gW warmCache eW (1/5000000)).1 ≠
      edgeWeightFormula gW eW (1/5000000) := by
  constructor
  · intro g c edge
    have hk : cacheKey edge (1/5000000) = cacheKey edge (1/10000000) := by
      unfold cacheKey
      rw [show fmt6 (1/5000000) = fmt6 (1/10000000) from by decide]
    rcases hc : lookupA c (cacheKey edge (1/10000000)) with _ | w
    · unfold calculateEdgeWeight
      rw [hk, hc]
      simp [lookupA_upsertA]
    · unfold calculateEdgeWeight
      rw [hk, hc]
      dsimp only
      rw [hc]
  · decide

end PICT

namespace PICT

unseal Rat.mul Rat.inv Rat.add Rat.sub in
/-- Counterexample to C2 as stated: a cache populated by one prior
get-or-compute call (at alpha = 10⁻⁷) makes the call at alpha = 2·10⁻⁷
return a different value than the same call on a cold cache, because the
two alphas share the six-decimal cache key. -/
theorem cache_transparency_counterexample :
    (calculateEdgeWeight gW warmCache eW (1/5000000)).1 ≠
      (calculateEdgeWeight gW ([] : Cache) eW (1/5000000)).1 := by
  decide

theorem runWeightCalls_lookup (g : Graph) (qs : List (Edge × ℚ)) :
    ∀ (c : Cache) (k : CacheKey) (w : ℚ),
      lookupA (runWeightCalls g c qs) k = some w →
      lookupA c k = some w ∨
        ∃ q ∈ qs, cacheKey q.1 q.2 = k ∧ w = edgeWeightFormula g q.1 q.2 := by
  induction qs with
  | nil => exact fun c k w hw => Or.inl hw
  | cons q rest ih =>
      intro c k w hw
      rw [runWeightCalls] at hw
      rcases hc : lookupA c (cacheKey q.1 q.2) with _ | w'
      · rw [show (calculateEdgeWeight g c q.1 q.2).2 =
            upsertA c (cacheKey q.1 q.2) (edgeWeightFormula g q.1 q.2) by
              unfold calculateEdgeWeight
              rw [hc]] at hw
        rcases ih _ _ _ hw with hin | ⟨q', hq', hk', hw'⟩
        · rw [lookupA_upsertA] at hin
          by_cases hkk : cacheKey q.1 q.2 = k
          · rw [if_pos hkk] at hin
            exact Or.inr ⟨q, List.mem_cons_self q rest,
              hkk, (Option.some.inj hin).symm⟩
          · rw [if_neg hkk] at hin
            exact Or.inl hin
        · exact Or.inr ⟨q', List.mem_cons_of_mem q hq', hk', hw'⟩
      · rw [show (calculateEdgeWeight g c q.1 q.2).2 = c by
            unfold calculateEdgeWeight
            rw [hc]] at hw
        rcases ih _ _ _ hw with hin | ⟨q', hq', hk', hw'⟩
        · exact Or.inl hin
        · exact Or.inr ⟨q', List.mem_cons_of_mem q hq', hk', hw'⟩

/-- C2 (amended): `calculateEdgeWeight` returns the same value on a cold
cache as on a cache populated by any sequence of prior calls, provided
every prior call whose six-decimal cache key collides with this one has
the same formula value — in particular whenever all alphas involved have
distinct six-decimal renderings, as the canonical set
{0, 0.25, 0.5, 0.75} does.  (For alphas whose renderings coincide, the
warm cache returns the other alpha's weight; see the counterexample.) -/
theorem cache_transparency_amended (g : Graph) (qs : List (Edge × ℚ))
    (edge : Edge) (alpha : ℚ)
    (h : ∀ q ∈ qs, cacheKey q.1 q.2 = cacheKey edge alpha →
      edgeWeightFormula g q.1 q.2 = edgeWeightFormula g edge alpha) :
    (calculateEdgeWeight g (runWeightCalls g [] qs) edge alpha).1 =
      (calculateEdgeWeight g ([] : Cache) edge alpha).1 := by
  have hcold : (calculateEdgeWeight g ([] : Cache) edge alpha).1 =
      edgeWeightFormula g edge alpha := by
    unfold calculateEdgeWeight
    rw [show lookupA ([] : Cache) (cacheKey edge alpha) = none from rfl]
  rw [hcold]
  rcases hwarm : lookupA (runWeightCalls g [] qs) (cacheKey edge alpha)
    with _ | w
  · unfold calculateEdgeWeight
    rw [hwarm]
  · rcases runWeightCalls_lookup g qs [] (cacheKey edge alpha) w hwarm with
      hin | ⟨q', hq', hk', hw'⟩
    · exact absurd hin (by simp [lookupA])
    · unfold calculateEdgeWeight
      rw [hwarm]
      exact hw' ▸ h q' hq' hk'

unseal Rat.mul Rat.inv Rat.add Rat.sub in
/-- Witness for the amended C2: a warm cache built from the
non-colliding alphas 0 and 1/4 agrees with the cold cache. -/
theorem cache_transparency_amended_witness :
    (calculateEdgeWeight gW (runWeightCalls gW [] [(eW, 0), (eW, 1/4)])
        eW (1/4)).1 =
      (calculateEdgeWeight gW ([] : Cache) eW (1/4)).1 :=
  cache_transparency_amended gW [(eW, 0), (eW, 1/4)] eW (1/4) (by decide)

end PICT

namespace PICT

/-- C9: when the start and end query points resolve (via nearest-node
lookup) to the same graph node, `FindRoute` returns the single-node path
with total distance 0 and average risk 0. -/
theorem findRoute_same_node_claim (hfun : Point → Point → ℚ) (fuel : ℕ)
    (g : Graph) (c : Cache) (start end_ : Point) (alpha : ℚ)
    (hv : validatePoints start end_ = none)
    (hn : g.findNearestPoint start = g.findNearestPoint end_)
    (hf : 1 ≤ fuel) :
    (FindRoute hfun fuel g c start end_ alpha).1 =
      some (Except.ok ([g.findNearestPoint start], 0, 0)) := by
  obtain ⟨f, rfl⟩ : ∃ f, fuel = f + 1 := ⟨fuel - 1, by omega⟩
  unfold FindRoute
  rw [hv]
  dsimp only
  rw [← hn]
  simp [findRouteAux, reconstructPath, reconstructPathAux, lookupA]

unseal Rat.mul Rat.inv Rat.add Rat.sub in
/-- Witness for C9 at a concrete graph and query point. -/
theorem findRoute_same_node_claim_witness :
    (FindRoute hzero 5 gW [] pA pA (1/4)).1 =
      some (Except.ok ([gW.findNearestPoint pA], 0, 0)) :=
  findRoute_same_node_claim hzero 5 gW [] pA pA (1/4) (by decide) rfl
    (by decide)

end PICT

namespace PICT

theorem findRouteAux_classify (g : Graph) (hfun : Point → Point → ℚ)
    (nearEnd : Point) (alpha : ℚ) :
    ∀ (fuel : ℕ) (c : Cache) (frontier costSoFar : List (Point × ℚ))
      (cameFrom : List (Point × Point)) (popped : List Point)
      (res : Except String (List Point × ℚ × ℚ)) (popped' : List Point)
      (c' : Cache),
      findRouteAux g hfun nearEnd alpha fuel c frontier costSoFar cameFrom
        popped = (some res, popped', c') →
      nearEnd ∉ popped →
      ((∃ r, res = Except.ok r) ↔ nearEnd ∈ popped') ∧
      (res = Except.error "no path found" ↔ nearEnd ∉ popped') := by
  intro fuel
  induction fuel with
  | zero =>
      intro c frontier cost came popped res popped' c' h hne
      exact absurd h (by simp [findRouteAux])
  | succ f ih =>
      intro c frontier cost came popped res popped' c' h hne
      rcases frontier with _ | ⟨⟨current, pr⟩, rest⟩
      · simp only [findRouteAux] at h
        rw [Prod.mk.injEq, Prod.mk.injEq] at h
        obtain ⟨h1, h2, h3⟩ := h
        obtain rfl := Option.some.inj h1
        subst h2
        simp [hne]
      · simp only [findRouteAux] at h
        by_cases hce : current = nearEnd
        · rw [if_pos hce] at h
          subst hce
          rcases hrec : reconstructPath g came (f + 1) current with _ | r <;>
            rw [hrec] at h
          · exact absurd h (by simp)
          · rw [Prod.mk.injEq, Prod.mk.injEq] at h
            obtain ⟨h1, h2, h3⟩ := h
            obtain rfl := Option.some.inj h1
            subst h2
            simp
        · rw [if_neg hce] at h
          rcases hex : expandNeighbors g hfun nearEnd alpha current
              (g.neighbors current) c rest cost came with ⟨c2, f2, cs2, cf2⟩
          rw [hex] at h
          have hne' : nearEnd ∉ popped ++ [current] := by
            intro hmem
            rcases List.mem_append.mp hmem with hm | hm
            · exact hne hm
            · exact hce (List.mem_singleton.mp hm).symm
          exact ih c2 f2 cs2 cf2 (popped ++ [current]) res popped' c' h hne'

end PICT

namespace PICT

unseal Rat.mul Rat.inv Rat.add Rat.sub in
theorem gDisc_step1 (hfun : Point → Point → ℚ) (alpha : ℚ) (f : ℕ) :
    findRouteAux gDisc hfun pC alpha (f + 3) [] [(pA, hfun pA pC)] [(pA, 0)]
      [] [] =
    findRouteAux gDisc hfun pC alpha (f + 2)
      [(cacheKey eAB alpha, edgeWeightFormula gDisc eAB alpha)]
      [(pB, 0 + edgeWeightFormula gDisc eAB alpha + hfun pB pC)]
      [(pA, 0), (pB, 0 + edgeWeightFormula gDisc eAB alpha)]
      [(pB, pA)] [pA] := rfl

unseal Rat.mul Rat.inv Rat.add Rat.sub in
theorem gDisc_step2 (hfun : Point → Point → ℚ) (alpha : ℚ)
    (hnot : ¬(edgeWeightFormula gDisc eAB alpha +
      edgeWeightFormula gDisc eBA alpha < (0:ℚ)))
    (f : ℕ) :
    findRouteAux gDisc hfun pC alpha (f + 2)
      [(cacheKey eAB alpha, edgeWeightFormula gDisc eAB alpha)]
      [(pB, 0 + edgeWeightFormula gDisc eAB alpha + hfun pB pC)]
      [(pA, 0), (pB, 0 + edgeWeightFormula gDisc eAB alpha)]
      [(pB, pA)] [pA] =
    (some (Except.error "no path found"), [pA, pB],
      [(cacheKey eAB alpha, edgeWeightFormula gDisc eAB alpha),
       (cacheKey eBA alpha, edgeWeightFormula gDisc eBA alpha)]) := by
  have hBC : ¬(pB = pC) := by decide
  have hl1 : lookupA [(pA, (0:ℚ)),
      (pB, 0 + edgeWeightFormula gDisc eAB alpha)] pA = some 0 := rfl
  have hl2 : lookupA [(pA, (0:ℚ)),
      (pB, 0 + edgeWeightFormula gDisc eAB alpha)] pB =
      some (0 + edgeWeightFormula gDisc eAB alpha) := rfl
  have hcw2 : calculateEdgeWeight gDisc
      [(cacheKey eAB alpha, edgeWeightFormula gDisc eAB alpha)]
      { start := pB, end_ := pA, distance := 1, riskScore := 1/2 } alpha =
      (edgeWeightFormula gDisc eBA alpha,
       [(cacheKey eAB alpha, edgeWeightFormula gDisc eAB alpha),
        (cacheKey eBA alpha, edgeWeightFormula gDisc eBA alpha)]) := rfl
  have hnot0 : ((0:ℚ) + edgeWeightFormula gDisc eAB alpha +
      edgeWeightFormula gDisc eBA alpha < 0) = False :=
    eq_false (by intro hcon; apply hnot; linarith)
  simp only [findRouteAux, expandNeighbors, hl1, hl2, hcw2, Option.getD_some,
    decide_eq_true_eq, hnot0, if_false, ite_false, eq_self_iff_true,
    if_neg hBC, List.cons_append, List.nil_append, List.singleton_append]

unseal Rat.mul Rat.inv Rat.add Rat.sub in
theorem gDisc_no_path (hfun : Point → Point → ℚ) (alpha : ℚ)
    (h0 : 0 ≤ alpha) (h1 : alpha ≤ 1) (f : ℕ) :
    (FindRoute hfun (f + 3) gDisc [] pA pC alpha).1 =
      some (Except.error "no path found") := by
  have hval : validatePoints pA pC = none := by decide
  have hnA : gDisc.findNearestPoint pA = pA := by decide
  have hnC : gDisc.findNearestPoint pC = pC := by decide
  have hM : gDisc.maxDist = 1 := by decide
  have hwAB : edgeWeightFormula gDisc eAB alpha = 1 - alpha / 2 := by
    unfold edgeWeightFormula
    rw [hM]
    show ((1 - alpha) * ((1 : ℚ) / 1) + alpha * (1/2)) * 1 = 1 - alpha / 2
    ring
  have hwBA : edgeWeightFormula gDisc eBA alpha = 1 - alpha / 2 := by
    unfold edgeWeightFormula
    rw [hM]
    show ((1 - alpha) * ((1 : ℚ) / 1) + alpha * (1/2)) * 1 = 1 - alpha / 2
    ring
  have hnot : ¬(edgeWeightFormula gDisc eAB alpha +
      edgeWeightFormula gDisc eBA alpha < (0:ℚ)) := by
    rw [hwAB, hwBA]
    intro hcon
    linarith
  unfold FindRoute
  rw [hval]
  dsimp only
  rw [hnA, hnC, gDisc_step1 hfun alpha f, gDisc_step2 hfun alpha hnot f]

end PICT

namespace PICT

/-- C4: whenever `FindRoute` terminates, it succeeds exactly when the
resolved end node was popped from the priority queue, and (for valid
query points) it returns the "no path found" error exactly when the
queue emptied without the resolved end node being popped; on a concrete
graph whose resolved endpoints lie in different connected components
this produces the "no path found" error for every alpha in [0,1]. -/
theorem findRoute_end_popped_claim :
    (∀ (hfun : Point → Point → ℚ) (fuel : ℕ) (g : Graph) (c : Cache)
      (start end_ : Point) (alpha : ℚ)
      (res : Except String (List Point × ℚ × ℚ)) (popped : List Point)
      (c' : Cache),
      FindRoute hfun fuel g c start end_ alpha = (some res, popped, c') →
      ((∃ r, res = Except.ok r) ↔ g.findNearestPoint end_ ∈ popped) ∧
      (validatePoints start end_ = none →
        (res = Except.error "no path found" ↔
          g.findNearestPoint end_ ∉ popped))) ∧
    (∀ (hfun : Point → Point → ℚ) (alpha : ℚ), 0 ≤ alpha → alpha ≤ 1 →
      ∀ f : ℕ,
      (FindRoute hfun (f + 3) gDisc [] pA pC alpha).1 =
        some (Except.error "no path found")) := by
  constructor
  · intro hfun fuel g c start end_ alpha res popped c' h
    unfold FindRoute at h
    rcases hval : validatePoints start end_ with _ | msg <;> rw [hval] at h
    · dsimp only at h
      have hcl := findRouteAux_classify g hfun (g.findNearestPoint end_)
        alpha fuel c _ _ _ _ res popped c' h (by simp)
      exact ⟨hcl.1, fun _ => hcl.2⟩
    · rw [Prod.mk.injEq, Prod.mk.injEq] at h
      obtain ⟨h1, h2, h3⟩ := h
      obtain rfl := Option.some.inj h1
      subst h2
      constructor
      · simp
      · intro hv
        exact Option.noConfusion hv
  · intro hfun alpha h0 h1 f
    exact gDisc_no_path hfun alpha h0 h1 f

unseal Rat.mul Rat.inv Rat.add Rat.sub in
/-- Witness for C4: a concrete terminating run on the two-component
graph, plus the concrete no-path instance. -/
theorem findRoute_end_popped_claim_witness :
    (((∃ r, (Except.error "no path found" :
          Except String (List Point × ℚ × ℚ)) = Except.ok r) ↔
        gDisc.findNearestPoint pC ∈ [pA, pB]) ∧
      (validatePoints pA pC = none →
        ((Except.error "no path found" :
            Except String (List Point × ℚ × ℚ)) =
              Except.error "no path found" ↔
          gDisc.findNearestPoint pC ∉ [pA, pB]))) ∧
    (FindRoute hzero (0 + 3) gDisc [] pA pC (1/4)).1 =
      some (Except.error "no path found") :=
  ⟨findRoute_end_popped_claim.1 hzero 5 gDisc [] pA pC 0
      (Except.error "no path found") [pA, pB]
      [({ keyStart := pA, keyEnd := pB, alpha6 := 0 }, 1),
       ({ keyStart := pB, keyEnd := pA, alpha6 := 0 }, 1)] (by decide),
   findRoute_end_popped_claim.2 hzero (1/4) (by decide) (by decide) 0⟩

end PICT

namespace PICT

set_option maxHeartbeats 1000000 in
theorem calculateRoutesAux_eq_outcomes (hfun : Point → Point → ℚ) (fuel : ℕ)
    (g : Graph) (start end_ : Point) :
    ∀ (alphas : List ℚ) (c : Cache) (acc : List Route),
    calculateRoutesAux hfun fuel g start end_ alphas c acc =
      (alphaOutcomes hfun fuel g start end_ alphas c).map
        (fun oc => (acc ++ oc.1.filterMap routeOfOutcome, oc.2)) := by
  intro alphas
  induction alphas with
  | nil =>
      intro c acc
      simp [calculateRoutesAux, alphaOutcomes]
  | cons a rest ih =>
      intro c acc
      rcases hF : FindRoute hfun fuel g c start end_ a with ⟨o, pp, c1⟩
      rcases o with _ | res
      · simp only [calculateRoutesAux, alphaOutcomes, hF]
        rfl
      · rcases res with msg | r
        · simp only [calculateRoutesAux, alphaOutcomes, hF]
          rw [ih]
          rcases alphaOutcomes hfun fuel g start end_ rest c1 with _ | ⟨outs1, c2⟩
          · rfl
          · simp [routeOfOutcome]
        · simp only [calculateRoutesAux, alphaOutcomes, hF]
          rw [ih]
          rcases alphaOutcomes hfun fuel g start end_ rest c1 with _ | ⟨outs1, c2⟩
          · rfl
          · simp [routeOfOutcome]

theorem alphaOutcomes_fst (hfun : Point → Point → ℚ) (fuel : ℕ) (g : Graph)
    (start end_ : Point) :
    ∀ (alphas : List ℚ) (c : Cache)
      (outs : List (ℚ × Except String (List Point × ℚ × ℚ))) (cF : Cache),
      alphaOutcomes hfun fuel g start end_ alphas c = some (outs, cF) →
      outs.map Prod.fst = alphas := by
  intro alphas
  induction alphas with
  | nil =>
      intro c outs cF h
      simp only [alphaOutcomes, Option.some.injEq, Prod.mk.injEq] at h
      obtain ⟨h1, h2⟩ := h
      subst h1
      rfl
  | cons a rest ih =>
      intro c outs cF h
      rcases hF : FindRoute hfun fuel g c start end_ a with ⟨o, pp, c1⟩
      rcases o with _ | res
      · simp only [alphaOutcomes, hF] at h
        exact Option.noConfusion h
      · simp only [alphaOutcomes, hF] at h
        rcases hrec : alphaOutcomes hfun fuel g start end_ rest c1 with
          _ | ⟨outs1, c2⟩ <;> rw [hrec] at h
        · exact Option.noConfusion h
        · simp at h
          obtain ⟨h1, h2⟩ := h
          subst h1
          simp [ih c1 outs1 c2 hrec]

end PICT

namespace PICT

/-- C3: `calculateRoutes` tries each alpha of the input once, in order
(the outcome list has exactly the input alphas as first components);
its result is `ok` of the successful routes in input order with failed
alphas omitted, and it returns the error "no valid routes found" if and
only if every alpha in the sequence fails. -/
theorem calculateRoutes_claim (hfun : Point → Point → ℚ) (fuel : ℕ)
    (g : Graph) (c : Cache) (start end_ : Point) (alphas : List ℚ)
    (outs : List (ℚ × Except String (List Point × ℚ × ℚ))) (cF : Cache)
    (h : alphaOutcomes hfun fuel g start end_ alphas c = some (outs, cF)) :
    outs.map Prod.fst = alphas ∧
    calculateRoutes hfun fuel g c start end_ alphas =
      some (if outs.filterMap routeOfOutcome = []
            then Except.error "no valid routes found"
            else Except.ok (outs.filterMap routeOfOutcome), cF) ∧
    ((∀ p ∈ outs, ∃ msg, p.2 = Except.error msg) ↔
      calculateRoutes hfun fuel g c start end_ alphas =
        some (Except.error "no valid routes found", cF)) := by
  have hfst := alphaOutcomes_fst hfun fuel g start end_ alphas c outs cF h
  have h2 : calculateRoutes hfun fuel g c start end_ alphas =
      some (if outs.filterMap routeOfOutcome = []
            then Except.error "no valid routes found"
            else Except.ok (outs.filterMap routeOfOutcome), cF) := by
    unfold calculateRoutes
    rw [calculateRoutesAux_eq_outcomes, h]
    simp
  refine ⟨hfst, h2, ?_, ?_⟩
  · intro hall
    have hnil : outs.filterMap routeOfOutcome = [] :=
      List.filterMap_eq_nil_iff.mpr (fun p hp => by
        rcases hall p hp with ⟨msg, hmsg⟩
        simp [routeOfOutcome, hmsg])
    rw [h2, hnil, if_pos rfl]
  · intro herr p hp
    rw [h2] at herr
    have hpair := Option.some.inj herr
    by_cases hemp : outs.filterMap routeOfOutcome = []
    · have hnone := List.filterMap_eq_nil_iff.mp hemp p hp
      rcases hres : p.2 with msg | r
      · exact ⟨msg, rfl⟩
      · simp [routeOfOutcome, hres] at hnone
    · rw [if_neg hemp] at hpair
      exact absurd (congrArg Prod.fst hpair) (by simp)

unseal Rat.mul Rat.inv Rat.add Rat.sub in
/-- Witness for C3 at a concrete run where both alphas fail. -/
theorem calculateRoutes_claim_witness :
    [((0:ℚ),
        (Except.error "no path found" :
          Except String (List Point × ℚ × ℚ))),
      (1/4, Except.error "no path found")].map Prod.fst = [0, 1/4] ∧
    ((∀ p ∈ [((0:ℚ),
        (Except.error "no path found" :
          Except String (List Point × ℚ × ℚ))),
      (1/4, Except.error "no path found")], ∃ msg, p.2 = Except.error msg) ↔
      calculateRoutes hzero 5 gDisc [] pA pC [0, 1/4] =
        some (Except.error "no valid routes found",
          [({ keyStart := pA, keyEnd := pB, alpha6 := 0 }, 1),
           ({ keyStart := pB, keyEnd := pA, alpha6 := 0 }, 1),
           ({ keyStart := pA, keyEnd := pB, alpha6 := 250000 }, 7/8),
           ({ keyStart := pB, keyEnd := pA, alpha6 := 250000 }, 7/8)])) :=
  have hcl := calculateRoutes_claim hzero 5 gDisc [] pA pC [0, 1/4]
    [((0:ℚ),
        (Except.error "no path found" :
          Except String (List Point × ℚ × ℚ))),
      (1/4, Except.error "no path found")]
    [({ keyStart := pA, keyEnd := pB, alpha6 := 0 }, 1),
     ({ keyStart := pB, keyEnd := pA, alpha6 := 0 }, 1),
     ({ keyStart := pA, keyEnd := pB, alpha6 := 250000 }, 7/8),
     ({ keyStart := pB, keyEnd := pA, alpha6 := 250000 }, 7/8)]
    (by decide)
  ⟨hcl.1, hcl.2.2⟩

end PICT

namespace PICT

/-- Witness for C10: the general collision equation applied at a
concrete graph, cache and edge. -/
theorem cacheKey_collision_claim_witness :
    (calculateEdgeWeight gW
        ((calculateEdgeWeight gW [] eW (1/10000000)).2) eW (1/5000000)).1 =
      (calculateEdgeWeight gW [] eW (1/10000000)).1 :=
  cacheKey_collision_claim.1 gW [] eW

end PICT
